import Mathlib

/-!
FaceFX actor asset (`Source/FaceFX/Classes/FaceFXActor.h`).

A shallow embedding of the class `UFaceFXActor`: its two array members
(`PlatformData`, `Animations`) and the inline member functions declared in the
header.  Engine arrays (`TArray`) are lists; a pointer or reference into an
array is the index of the element it designates, a null pointer is `none`.
Member functions that are not `const` thread the asset state explicitly.
-/

set_option autoImplicit false

namespace FaceFX

/-! ## The engine container -/

namespace TArray

variable {α κ : Type}

/-- Host-engine container operation `TArray::Num` (the engine is not part of
this repository): the number of elements held. -/
def Num (xs : List α) : Nat := xs.length

/-- Host-engine container operation `TArray::Empty`: drops every element. -/
def Empty (_xs : List α) : List α := []

/-- Host-engine container operation `TArray::Add`: appends the element at the
end and returns the index it was stored at. -/
def Add (xs : List α) (x : α) : List α × Nat := (xs ++ [x], xs.length)

/-- Host-engine container operation `TArray::FindByKey`, as the specification
describes it: a linear search from the front that compares each element with
the key through the element's `operator==` (here `eq`) and returns a pointer
to the first match, or `nullptr` (here `none`). -/
def FindByKey (eq : α → κ → Bool) : List α → κ → Option Nat
  | [], _ => none
  | x :: xs, k => if eq x k then some 0 else (FindByKey eq xs k).map (· + 1)

/-- Host-engine container operation `TArray::Find`: the index of the first
element equal to the item, or `INDEX_NONE` (here `none`). -/
def Find [DecidableEq α] : List α → α → Option Nat
  | [], _ => none
  | x :: xs, a => if x = a then some 0 else (Find xs a).map (· + 1)

/-- Host-engine container operation `TArray::AddUnique`: returns the index of
an existing equal element when there is one and appends the item otherwise. -/
def AddUnique [DecidableEq α] (xs : List α) (a : α) : List α × Nat :=
  match Find xs a with
  | some i => (xs, i)
  | none => Add xs a

/-- Host-engine container operation `TArray::Remove`, as the specification
describes it: removes all elements equal to the item, keeps the others in
order, and returns how many were removed. -/
def Remove [DecidableEq α] : List α → α → List α × Nat
  | [], _ => ([], 0)
  | x :: xs, a =>
    let r := Remove xs a
    if x = a then (r.1, r.2 + 1) else (x :: r.1, r.2)

end TArray

/-! ## Data model -/

/-- Modelled from the spec: the struct `FFaceFXActorData` of `FaceFXData.h`
(not among the sources), the per-target-platform binary blob together with
the platform tag it was compiled for. -/
structure FFaceFXActorData (Platform Blob : Type) where
  /-- The target platform tag of the entry. -/
  Platform : Platform
  /-- The compiled binary data of the entry. -/
  Blob : Blob
deriving DecidableEq, Repr

namespace FFaceFXActorData

variable {Platform Blob : Type}

/-- Modelled from the spec: the constructor `FFaceFXActorData(Platform)` of
`FaceFXData.h`, a fresh entry tagged with the platform and holding no data. -/
def ofPlatform [Inhabited Blob] (p : Platform) : FFaceFXActorData Platform Blob :=
  { Platform := p, Blob := default }

/-- Modelled from the spec: the comparison of an entry with a platform key
(`operator==` of `FaceFXData.h`), which compares the entry's platform tag. -/
def eqKey [DecidableEq Platform] (e : FFaceFXActorData Platform Blob) (p : Platform) : Bool :=
  decide (e.Platform = p)

end FFaceFXActorData

/-- The state of a `UFaceFXActor`: the base-class part (`UFaceFXAsset`) and the
two private array members. -/
structure UFaceFXActor (Base Platform Blob Anim : Type) where
  /-- The state of the base class `UFaceFXAsset`. -/
  Super : Base
  /-- The member `PlatformData`: a list of data per platform. -/
  PlatformData : List (FFaceFXActorData Platform Blob)
  /-- The member `Animations`: the linked animation sets. -/
  Animations : List Anim
deriving DecidableEq, Repr

/-- The engine assertion `checkf(cond, msg)`: execution continues when the
condition holds and stops with the message otherwise. -/
def checkf (cond : Bool) (msg : String) : Except String Unit :=
  if cond then Except.ok () else Except.error msg

namespace UFaceFXActor

variable {Base Platform Blob Anim : Type}

/-- Member `IsValid() const`: `Super::IsValid() && PlatformData.Num() > 0`; the base
class's `IsValid` is a parameter. -/
def IsValid (superIsValid : Base → Bool) (s : UFaceFXActor Base Platform Blob Anim) : Bool :=
  superIsValid s.Super && decide (TArray.Num s.PlatformData > 0)

/-- Member `Reset()`: `PlatformData.Empty()`. -/
def Reset (s : UFaceFXActor Base Platform Blob Anim) : UFaceFXActor Base Platform Blob Anim :=
  { s with PlatformData := TArray.Empty s.PlatformData }

/-- Member `LinkTo(AnimSet)`: `Animations.AddUnique(AnimSet)`. -/
def LinkTo [DecidableEq Anim] (s : UFaceFXActor Base Platform Blob Anim) (AnimSet : Anim) :
    UFaceFXActor Base Platform Blob Anim :=
  { s with Animations := (TArray.AddUnique s.Animations AnimSet).1 }

/-- Member `UnlinkFrom(AnimSet)`: `return Animations.Remove(AnimSet) > 0`. -/
def UnlinkFrom [DecidableEq Anim] (s : UFaceFXActor Base Platform Blob Anim) (AnimSet : Anim) :
    UFaceFXActor Base Platform Blob Anim × Bool :=
  let r := TArray.Remove s.Animations AnimSet
  ({ s with Animations := r.1 }, decide (r.2 > 0))

/-- Member `GetPlatformData(Platform)`: `return PlatformData.FindByKey(Platform)`. -/
def GetPlatformData [DecidableEq Platform] (s : UFaceFXActor Base Platform Blob Anim)
    (p : Platform) : UFaceFXActor Base Platform Blob Anim × Option Nat :=
  (s, TArray.FindByKey FFaceFXActorData.eqKey s.PlatformData p)

/-- Member `GetOrCreatePlatformData(Platform)`: the existing entry when `FindByKey`
finds one, else `PlatformData[PlatformData.Add(FFaceFXActorData(Platform))]`. -/
def GetOrCreatePlatformData [DecidableEq Platform] [Inhabited Blob]
    (s : UFaceFXActor Base Platform Blob Anim) (p : Platform) :
    UFaceFXActor Base Platform Blob Anim × Nat :=
  match TArray.FindByKey FFaceFXActorData.eqKey s.PlatformData p with
  | some ExistingEntry => (s, ExistingEntry)
  | none =>
    let r := TArray.Add s.PlatformData (FFaceFXActorData.ofPlatform p)
    ({ s with PlatformData := r.1 }, r.2)

/-- Member `GetData()`, the mutable overload.  With `WITH_EDITORONLY_DATA` the entry
`FindByKey` finds for `PC`, guarded by `checkf(DataForPC, ...)`; in the cooked
build `PlatformData[0]`, guarded by `checkf(PlatformData.Num(), ...)`.  The
assertion stops execution, so the dereference of a null `DataForPC` behind it
is never reached. -/
def GetData [DecidableEq Platform] (WITH_EDITORONLY_DATA : Bool) (PC : Platform)
    (s : UFaceFXActor Base Platform Blob Anim) :
    Except String (UFaceFXActor Base Platform Blob Anim × Nat) :=
  if WITH_EDITORONLY_DATA then do
    let DataForPC := TArray.FindByKey FFaceFXActorData.eqKey s.PlatformData PC
    checkf DataForPC.isSome "Asset not initialized for PC."
    match DataForPC with
    | some entry => pure (s, entry)
    | none => throw "null pointer dereferenced"
  else do
    checkf (decide (TArray.Num s.PlatformData ≠ 0)) "Asset not initialized yet."
    pure (s, 0)

/-- Member `GetData() const`, the const overload, with the same two branches. -/
def GetDataConst [DecidableEq Platform] (WITH_EDITORONLY_DATA : Bool) (PC : Platform)
    (s : UFaceFXActor Base Platform Blob Anim) : Except String Nat :=
  if WITH_EDITORONLY_DATA then do
    let DataForPC := TArray.FindByKey FFaceFXActorData.eqKey s.PlatformData PC
    checkf DataForPC.isSome "Asset not initialized for PC."
    match DataForPC with
    | some entry => pure entry
    | none => throw "null pointer dereferenced"
  else do
    checkf (decide (TArray.Num s.PlatformData ≠ 0)) "Asset not initialized yet."
    pure 0

/-- The entry a pointer or reference into `PlatformData` designates. -/
def entryAt (s : UFaceFXActor Base Platform Blob Anim) (i : Nat) :
    Option (FFaceFXActorData Platform Blob) :=
  s.PlatformData[i]?

end UFaceFXActor

/-! ## Call sequences -/

/-- A call of one of the two animation-linkage mutators. -/
inductive LinkCall (Anim : Type) where
  | linkTo (AnimSet : Anim)
  | unlinkFrom (AnimSet : Anim)
deriving DecidableEq, Repr

/-- A call of one of the two mutators of `PlatformData`. -/
inductive PlatformCall (Platform : Type) where
  | getOrCreate (p : Platform)
  | reset
deriving DecidableEq, Repr

section Calls

variable {Base Platform Blob Anim : Type}

/-- Performs one linkage call on the asset. -/
def LinkCall.apply [DecidableEq Anim] (s : UFaceFXActor Base Platform Blob Anim) :
    LinkCall Anim → UFaceFXActor Base Platform Blob Anim
  | .linkTo a => s.LinkTo a
  | .unlinkFrom a => (s.UnlinkFrom a).1

/-- Performs a sequence of linkage calls, first to last. -/
def runLinkCalls [DecidableEq Anim] (s : UFaceFXActor Base Platform Blob Anim)
    (calls : List (LinkCall Anim)) : UFaceFXActor Base Platform Blob Anim :=
  calls.foldl LinkCall.apply s

/-- Performs one platform-data call on the asset. -/
def PlatformCall.apply [DecidableEq Platform] [Inhabited Blob]
    (s : UFaceFXActor Base Platform Blob Anim) :
    PlatformCall Platform → UFaceFXActor Base Platform Blob Anim
  | .getOrCreate p => (s.GetOrCreatePlatformData p).1
  | .reset => s.Reset

/-- Performs a sequence of platform-data calls, first to last. -/
def runPlatformCalls [DecidableEq Platform] [Inhabited Blob]
    (s : UFaceFXActor Base Platform Blob Anim) (calls : List (PlatformCall Platform)) :
    UFaceFXActor Base Platform Blob Anim :=
  calls.foldl PlatformCall.apply s

/-- The platforms requested by the calls that follow the last `reset`, in
call order, after the platforms `acc` requested before the sequence. -/
def requestedSinceReset (acc : List Platform) (calls : List (PlatformCall Platform)) :
    List Platform :=
  calls.foldl (fun r c => match c with
    | .getOrCreate p => r ++ [p]
    | .reset => []) acc

/-- No two entries of the array share a platform. -/
def PlatformsDistinct (xs : List (FFaceFXActorData Platform Blob)) : Prop :=
  (xs.map (·.Platform)).Nodup

end Calls

/-- A small asset used to exercise the definitions: platform tags and
animation references are numbers, tag `0` stands for `PC`. -/
def sampleActor : UFaceFXActor Bool Nat Nat Nat :=
  { Super := true
    PlatformData := [⟨1, 10⟩, ⟨0, 20⟩, ⟨0, 30⟩]
    Animations := [5, 7, 9] }

/-- A freshly reset asset with no linked animation: both arrays are empty. -/
def emptyActor : UFaceFXActor Bool Nat Nat Nat :=
  { Super := true, PlatformData := [], Animations := [] }

/-- An asset holding one entry for each of the platforms `1` and `0`. -/
def distinctActor : UFaceFXActor Bool Nat Nat Nat :=
  { Super := true, PlatformData := [⟨1, 10⟩, ⟨0, 20⟩], Animations := [] }

/-- An asset whose `Animations` array lists the reference `5` twice, as an
instance edited by hand can. -/
def duplicatedActor : UFaceFXActor Bool Nat Nat Nat :=
  { Super := false, PlatformData := [], Animations := [5, 7, 5, 9] }

/-! ## Facts about the container operations -/

namespace TArray

variable {α κ : Type}

theorem Remove_fst [DecidableEq α] (xs : List α) (a : α) :
    (Remove xs a).1 = xs.filter (fun x => decide (x ≠ a)) := by
  induction xs with
  | nil => rfl
  | cons x xs ih =>
    by_cases h : x = a
    · simp [Remove, h, ih]
    · simp [Remove, h, ih]

theorem Remove_snd [DecidableEq α] (xs : List α) (a : α) :
    (Remove xs a).2 = xs.count a := by
  induction xs with
  | nil => rfl
  | cons x xs ih =>
    by_cases h : x = a
    · simp [Remove, h, ih]
    · simp [Remove, h, ih, List.count_cons]

theorem Find_eq_none [DecidableEq α] (xs : List α) (a : α) :
    Find xs a = none ↔ a ∉ xs := by
  induction xs with
  | nil => simp [Find]
  | cons x xs ih =>
    by_cases h : x = a
    · simp [Find, h]
    · simp [Find, h, ih, Ne.symm h]

theorem FindByKey_nil (eq : α → κ → Bool) (k : κ) : FindByKey eq [] k = none := rfl

theorem FindByKey_cons (eq : α → κ → Bool) (x : α) (xs : List α) (k : κ) :
    FindByKey eq (x :: xs) k =
      if eq x k then some 0 else (FindByKey eq xs k).map (· + 1) := rfl

theorem FindByKey_eq_none (eq : α → κ → Bool) (xs : List α) (k : κ) :
    FindByKey eq xs k = none ↔ ∀ x ∈ xs, eq x k = false := by
  induction xs with
  | nil => simp [FindByKey_nil]
  | cons x xs ih =>
    cases h : eq x k <;> simp [FindByKey_cons, h, ih]

theorem FindByKey_eq_some (eq : α → κ → Bool) (xs : List α) (k : κ) (i : Nat) :
    FindByKey eq xs k = some i ↔
      (∃ x, xs[i]? = some x ∧ eq x k = true) ∧
      ∀ j, j < i → ∀ y, xs[j]? = some y → eq y k = false := by
  induction xs generalizing i with
  | nil => simp [FindByKey_nil]
  | cons x xs ih =>
    rw [FindByKey_cons]
    cases h : eq x k
    · cases i with
      | zero => simp [h]
      | succ i =>
        simp only [Bool.false_eq_true, if_false, Option.map_eq_some',
          Nat.add_right_cancel_iff, exists_eq_right, ih, List.getElem?_cons_succ]
        constructor
        · rintro ⟨h1, h2⟩
          refine ⟨h1, ?_⟩
          intro j hj y hy
          cases j with
          | zero =>
            simp only [List.getElem?_cons_zero, Option.some.injEq] at hy
            subst hy; exact h
          | succ j => exact h2 j (by omega) y (by simpa using hy)
        · rintro ⟨h1, h2⟩
          refine ⟨h1, ?_⟩
          intro j hj y hy
          exact h2 (j + 1) (by omega) y (by simpa using hy)
    · cases i with
      | zero => simp [h]
      | succ i =>
        simp only [if_true, Option.some.injEq, List.getElem?_cons_succ]
        constructor
        · intro h0; omega
        · rintro ⟨_, h2⟩
          have := h2 0 (by omega) x (by simp)
          simp [h] at this

theorem FindByKey_append_new (eq : α → κ → Bool) (xs : List α) (x : α) (k : κ)
    (hnone : FindByKey eq xs k = none) (hx : eq x k = true) :
    FindByKey eq (xs ++ [x]) k = some xs.length := by
  induction xs with
  | nil => simp [FindByKey_cons, FindByKey_nil, hx]
  | cons y ys ih =>
    rw [FindByKey_cons] at hnone
    cases h : eq y k
    · simp only [h, Bool.false_eq_true, if_false, Option.map_eq_none'] at hnone
      simp [FindByKey_cons, h, ih hnone]
    · simp [h] at hnone

theorem AddUnique_fst [DecidableEq α] (xs : List α) (a : α) :
    (AddUnique xs a).1 = if a ∈ xs then xs else xs ++ [a] := by
  unfold AddUnique
  cases h : Find xs a with
  | none =>
    have hn : a ∉ xs := (Find_eq_none xs a).1 h
    simp [Add, hn]
  | some i =>
    have hm : a ∈ xs := by
      by_contra hc
      rw [(Find_eq_none xs a).2 hc] at h
      cases h
    simp [hm]

end TArray

/-! ## Facts about the member functions -/

namespace UFaceFXActor

variable {Base Platform Blob Anim : Type}

theorem eqKey_eq_false [DecidableEq Platform] (e : FFaceFXActorData Platform Blob)
    (p : Platform) : FFaceFXActorData.eqKey e p = false ↔ e.Platform ≠ p := by
  simp [FFaceFXActorData.eqKey]

theorem eqKey_eq_true [DecidableEq Platform] (e : FFaceFXActorData Platform Blob)
    (p : Platform) : FFaceFXActorData.eqKey e p = true ↔ e.Platform = p := by
  simp [FFaceFXActorData.eqKey]

theorem findByKey_none_iff [DecidableEq Platform]
    (xs : List (FFaceFXActorData Platform Blob)) (p : Platform) :
    TArray.FindByKey FFaceFXActorData.eqKey xs p = none ↔ ∀ e ∈ xs, e.Platform ≠ p := by
  simp [TArray.FindByKey_eq_none, eqKey_eq_false]

theorem findByKey_some_iff [DecidableEq Platform]
    (xs : List (FFaceFXActorData Platform Blob)) (p : Platform) (i : Nat) :
    TArray.FindByKey FFaceFXActorData.eqKey xs p = some i ↔
      (∃ e, xs[i]? = some e ∧ e.Platform = p) ∧
      ∀ j, j < i → ∀ y, xs[j]? = some y → y.Platform ≠ p := by
  simp [TArray.FindByKey_eq_some, eqKey_eq_false, eqKey_eq_true]

theorem findByKey_isSome_of_mem [DecidableEq Platform]
    (xs : List (FFaceFXActorData Platform Blob)) (p : Platform)
    (h : ∃ e ∈ xs, e.Platform = p) :
    ∃ i, TArray.FindByKey FFaceFXActorData.eqKey xs p = some i := by
  cases hf : TArray.FindByKey FFaceFXActorData.eqKey xs p with
  | some i => exact ⟨i, rfl⟩
  | none =>
    obtain ⟨e, he, hp⟩ := h
    exact absurd hp ((findByKey_none_iff xs p).1 hf e he)

theorem GetOrCreatePlatformData_of_some [DecidableEq Platform] [Inhabited Blob]
    (s : UFaceFXActor Base Platform Blob Anim) (p : Platform) (i : Nat)
    (h : TArray.FindByKey FFaceFXActorData.eqKey s.PlatformData p = some i) :
    s.GetOrCreatePlatformData p = (s, i) := by
  simp [GetOrCreatePlatformData, h]

theorem GetOrCreatePlatformData_of_none [DecidableEq Platform] [Inhabited Blob]
    (s : UFaceFXActor Base Platform Blob Anim) (p : Platform)
    (h : TArray.FindByKey FFaceFXActorData.eqKey s.PlatformData p = none) :
    s.GetOrCreatePlatformData p =
      ({ s with PlatformData := s.PlatformData ++ [FFaceFXActorData.ofPlatform p] },
        s.PlatformData.length) := by
  simp [GetOrCreatePlatformData, h, TArray.Add]

theorem GetOrCreatePlatformData_platforms [DecidableEq Platform] [Inhabited Blob]
    (s : UFaceFXActor Base Platform Blob Anim) (p : Platform) :
    (s.GetOrCreatePlatformData p).1.PlatformData.map (·.Platform) =
      if p ∈ s.PlatformData.map (·.Platform) then s.PlatformData.map (·.Platform)
      else s.PlatformData.map (·.Platform) ++ [p] := by
  cases h : TArray.FindByKey FFaceFXActorData.eqKey s.PlatformData p with
  | some i =>
    rw [GetOrCreatePlatformData_of_some s p i h]
    obtain ⟨⟨e, he, hp⟩, _⟩ := (findByKey_some_iff _ _ _).1 h
    have hm : p ∈ s.PlatformData.map (·.Platform) :=
      List.mem_map.2 ⟨e, List.getElem?_mem he, hp⟩
    simp only [hm, if_true]
  | none =>
    rw [GetOrCreatePlatformData_of_none s p h]
    have hn : p ∉ s.PlatformData.map (·.Platform) := by
      intro hm
      obtain ⟨e, he, hp⟩ := List.mem_map.1 hm
      exact (findByKey_none_iff _ _).1 h e he hp
    simp [hn, FFaceFXActorData.ofPlatform]

theorem LinkTo_Animations [DecidableEq Anim] (s : UFaceFXActor Base Platform Blob Anim)
    (a : Anim) :
    (s.LinkTo a).Animations = if a ∈ s.Animations then s.Animations else s.Animations ++ [a] := by
  simp [LinkTo, TArray.AddUnique_fst]

theorem UnlinkFrom_Animations [DecidableEq Anim] (s : UFaceFXActor Base Platform Blob Anim)
    (a : Anim) :
    (s.UnlinkFrom a).1.Animations = s.Animations.filter (fun x => decide (x ≠ a)) := by
  simp [UnlinkFrom, TArray.Remove_fst]

theorem LinkTo_nodup [DecidableEq Anim] (s : UFaceFXActor Base Platform Blob Anim)
    (a : Anim) (h : s.Animations.Nodup) : (s.LinkTo a).Animations.Nodup := by
  rw [LinkTo_Animations]
  by_cases hm : a ∈ s.Animations
  · simpa [hm] using h
  · simp only [hm, if_false]
    exact List.nodup_append.2 ⟨h, List.nodup_singleton a, by simpa using hm⟩

theorem UnlinkFrom_nodup [DecidableEq Anim] (s : UFaceFXActor Base Platform Blob Anim)
    (a : Anim) (h : s.Animations.Nodup) : (s.UnlinkFrom a).1.Animations.Nodup := by
  rw [UnlinkFrom_Animations]
  exact h.filter _

end UFaceFXActor

theorem runLinkCalls_nodup {Base Platform Blob Anim : Type} [DecidableEq Anim]
    (calls : List (LinkCall Anim)) (s : UFaceFXActor Base Platform Blob Anim)
    (h : s.Animations.Nodup) : (runLinkCalls s calls).Animations.Nodup := by
  induction calls generalizing s with
  | nil => exact h
  | cons c cs ih =>
    simp only [runLinkCalls, List.foldl_cons]
    apply ih
    cases c with
    | linkTo a => exact UFaceFXActor.LinkTo_nodup s a h
    | unlinkFrom a => exact UFaceFXActor.UnlinkFrom_nodup s a h

theorem runPlatformCalls_invariant {Base Platform Blob Anim : Type} [DecidableEq Platform]
    [Inhabited Blob] (calls : List (PlatformCall Platform))
    (s : UFaceFXActor Base Platform Blob Anim) (acc : List Platform)
    (hd : PlatformsDistinct s.PlatformData)
    (hm : ∀ p, p ∈ s.PlatformData.map (·.Platform) ↔ p ∈ acc) :
    PlatformsDistinct (runPlatformCalls s calls).PlatformData ∧
    ∀ p, p ∈ (runPlatformCalls s calls).PlatformData.map (·.Platform) ↔
      p ∈ requestedSinceReset acc calls := by
  induction calls generalizing s acc with
  | nil => exact ⟨hd, hm⟩
  | cons c cs ih =>
    simp only [runPlatformCalls, requestedSinceReset, List.foldl_cons]
    cases c with
    | reset =>
      exact ih s.Reset [] (by simp [PlatformsDistinct, UFaceFXActor.Reset, TArray.Empty])
        (by simp [UFaceFXActor.Reset, TArray.Empty])
    | getOrCreate q =>
      apply ih (s.GetOrCreatePlatformData q).1 (acc ++ [q])
      · unfold PlatformsDistinct at hd ⊢
        rw [UFaceFXActor.GetOrCreatePlatformData_platforms]
        by_cases hq : q ∈ s.PlatformData.map (·.Platform)
        · simpa [hq] using hd
        · simp only [hq, if_false]
          exact List.nodup_append.2 ⟨hd, List.nodup_singleton q, by simpa using hq⟩
      · intro p
        rw [UFaceFXActor.GetOrCreatePlatformData_platforms]
        by_cases hq : q ∈ s.PlatformData.map (·.Platform)
        · simp only [hq, if_true, List.mem_append, List.mem_singleton]
          constructor
          · intro h; exact Or.inl ((hm p).1 h)
          · rintro (h | h)
            · exact (hm p).2 h
            · exact h ▸ hq
        · simp only [hq, if_false, List.mem_append, List.mem_singleton, hm p]

/-! ## The claims -/

section Claims

variable {Base Platform Blob Anim : Type}

/-- C1: `UnlinkFrom(A)` returns true exactly when `A` occurred in `Animations`
before the call; afterwards `A` does not occur, the list is the old list with
the occurrences of `A` taken out (so every other reference stays, in its
original relative order), and when the result is false the asset is unchanged. -/
theorem UnlinkFrom_contract [DecidableEq Anim] (s : UFaceFXActor Base Platform Blob Anim)
    (A : Anim) :
    ((s.UnlinkFrom A).2 = true ↔ A ∈ s.Animations) ∧
    A ∉ (s.UnlinkFrom A).1.Animations ∧
    (s.UnlinkFrom A).1.Animations = s.Animations.filter (fun x => decide (x ≠ A)) ∧
    (∀ B, B ≠ A → (B ∈ (s.UnlinkFrom A).1.Animations ↔ B ∈ s.Animations)) ∧
    ((s.UnlinkFrom A).2 = false → (s.UnlinkFrom A).1 = s) := by
  have hf := UFaceFXActor.UnlinkFrom_Animations s A
  have hr : (s.UnlinkFrom A).2 = true ↔ A ∈ s.Animations := by
    simp [UFaceFXActor.UnlinkFrom, TArray.Remove_snd, List.count_pos_iff]
  refine ⟨hr, ?_, hf, ?_, ?_⟩
  · rw [hf]; simp
  · intro B hB
    rw [hf]; simp [hB]
  · intro hfalse
    have hn : A ∉ s.Animations := by
      intro hm
      rw [hr.2 hm] at hfalse
      cases hfalse
    have hkeep : s.Animations.filter (fun x => decide (x ≠ A)) = s.Animations := by
      apply List.filter_eq_self.2
      intro x hx
      have : x ≠ A := fun h => hn (h ▸ hx)
      simpa using this
    have h1 : (s.UnlinkFrom A).1 = { s with Animations := (s.UnlinkFrom A).1.Animations } := rfl
    rw [h1, hf, hkeep]

/-- Witness of C1: unlinking `5` from the asset that lists it twice removes both
occurrences and reports true; unlinking the absent `8` from the sample asset
reports false and changes nothing. -/
theorem UnlinkFrom_contract_witness :
    (duplicatedActor.UnlinkFrom 5).1.Animations = [7, 9] ∧
    ((duplicatedActor.UnlinkFrom 5).2 = true ↔ 5 ∈ duplicatedActor.Animations) ∧
    (sampleActor.UnlinkFrom 8).2 = false ∧
    (sampleActor.UnlinkFrom 8).1 = sampleActor :=
  ⟨by decide, (UnlinkFrom_contract duplicatedActor 5).1, by decide,
    (UnlinkFrom_contract sampleActor 8).2.2.2.2 (by decide)⟩

/-- C2: the animation linkage is a deduplicated set: when `Animations` holds no
reference twice, it still holds none twice after `LinkTo(A)` and after
`UnlinkFrom(A)`, and every state reached from an empty `Animations` list by a
sequence of `LinkTo` and `UnlinkFrom` calls has no duplicates. -/
theorem Animations_deduplicated [DecidableEq Anim] (s : UFaceFXActor Base Platform Blob Anim)
    (calls : List (LinkCall Anim)) :
    (s.Animations.Nodup →
      ∀ A, (s.LinkTo A).Animations.Nodup ∧ (s.UnlinkFrom A).1.Animations.Nodup) ∧
    (s.Animations = [] → (runLinkCalls s calls).Animations.Nodup) := by
  refine ⟨fun h A => ⟨UFaceFXActor.LinkTo_nodup s A h, UFaceFXActor.UnlinkFrom_nodup s A h⟩, ?_⟩
  intro h
  exact runLinkCalls_nodup calls s (by rw [h]; exact List.nodup_nil)

/-- Witness of C2: the sample asset has no duplicate and keeps none when `7` is
linked again; from the empty asset the calls `LinkTo 3, LinkTo 3,
UnlinkFrom 4, LinkTo 5` leave `[3, 5]`. -/
theorem Animations_deduplicated_witness :
    sampleActor.Animations.Nodup ∧
    ((sampleActor.LinkTo 7).Animations.Nodup ∧ (sampleActor.UnlinkFrom 7).1.Animations.Nodup) ∧
    (runLinkCalls emptyActor
      [LinkCall.linkTo 3, LinkCall.linkTo 3, LinkCall.unlinkFrom 4, LinkCall.linkTo 5]).Animations
      = [3, 5] ∧
    (runLinkCalls emptyActor
      [LinkCall.linkTo 3, LinkCall.linkTo 3, LinkCall.unlinkFrom 4,
        LinkCall.linkTo 5]).Animations.Nodup :=
  ⟨by decide, (Animations_deduplicated sampleActor []).1 (by decide) 7, by decide,
    (Animations_deduplicated emptyActor _).2 rfl⟩

/-- C3: `GetOrCreatePlatformData(P)` always yields an entry whose platform is
`P`.  When `PlatformData` already holds an entry for `P` the asset is unchanged
and the first such entry is returned; otherwise `PlatformData` is the old array
with `FFaceFXActorData(P)` appended, the old entries stay in place, and the
returned entry is the new last element.  A following `GetPlatformData(P)`
returns the same entry. -/
theorem GetOrCreatePlatformData_contract [DecidableEq Platform] [Inhabited Blob]
    (s : UFaceFXActor Base Platform Blob Anim) (P : Platform) :
    (∃ e, (s.GetOrCreatePlatformData P).1.entryAt (s.GetOrCreatePlatformData P).2 = some e ∧
      e.Platform = P) ∧
    ((∃ e ∈ s.PlatformData, e.Platform = P) →
      (s.GetOrCreatePlatformData P).1 = s ∧
      ∀ j, j < (s.GetOrCreatePlatformData P).2 →
        ∀ y, s.PlatformData[j]? = some y → y.Platform ≠ P) ∧
    ((∀ e ∈ s.PlatformData, e.Platform ≠ P) →
      (s.GetOrCreatePlatformData P).1 =
        { s with PlatformData := s.PlatformData ++ [FFaceFXActorData.ofPlatform P] } ∧
      (s.GetOrCreatePlatformData P).1.PlatformData.length = s.PlatformData.length + 1 ∧
      (∀ j, j < s.PlatformData.length →
        (s.GetOrCreatePlatformData P).1.PlatformData[j]? = s.PlatformData[j]?) ∧
      (s.GetOrCreatePlatformData P).2 = s.PlatformData.length ∧
      (s.GetOrCreatePlatformData P).1.entryAt (s.GetOrCreatePlatformData P).2 =
        (s.GetOrCreatePlatformData P).1.PlatformData.getLast? ∧
      (s.GetOrCreatePlatformData P).1.PlatformData.getLast? =
        some (FFaceFXActorData.ofPlatform P)) ∧
    ((s.GetOrCreatePlatformData P).1.GetPlatformData P).2 =
      some (s.GetOrCreatePlatformData P).2 := by
  cases h : TArray.FindByKey FFaceFXActorData.eqKey s.PlatformData P with
  | some i =>
    rw [UFaceFXActor.GetOrCreatePlatformData_of_some s P i h]
    obtain ⟨hi, hfirst⟩ := (UFaceFXActor.findByKey_some_iff _ _ _).1 h
    refine ⟨hi, fun _ => ⟨rfl, hfirst⟩, ?_, h⟩
    intro hno
    obtain ⟨e, he, hp⟩ := hi
    exact absurd hp (hno e (List.getElem?_mem he))
  | none =>
    rw [UFaceFXActor.GetOrCreatePlatformData_of_none s P h]
    have hno := (UFaceFXActor.findByKey_none_iff _ _).1 h
    refine ⟨⟨FFaceFXActorData.ofPlatform P, by simp [UFaceFXActor.entryAt], rfl⟩, ?_, ?_, ?_⟩
    · rintro ⟨e, he, hp⟩
      exact absurd hp (hno e he)
    · intro _
      refine ⟨rfl, by simp, ?_, rfl, by simp [UFaceFXActor.entryAt], by simp⟩
      intro j hj
      simp [List.getElem?_append_left hj]
    · exact TArray.FindByKey_append_new _ _ _ _ h (by simp [FFaceFXActorData.eqKey,
        FFaceFXActorData.ofPlatform])

/-- Witness of C3: on the sample asset platform `0` is found at index `1` and
nothing changes, while platform `4` gets a new entry at index `3`. -/
theorem GetOrCreatePlatformData_contract_witness :
    sampleActor.GetOrCreatePlatformData 0 = (sampleActor, 1) ∧
    (sampleActor.GetOrCreatePlatformData 4).2 = 3 ∧
    (sampleActor.GetOrCreatePlatformData 4).1.PlatformData =
      [⟨1, 10⟩, ⟨0, 20⟩, ⟨0, 30⟩, ⟨4, 0⟩] ∧
    (sampleActor.GetOrCreatePlatformData 0).1 = sampleActor ∧
    (sampleActor.GetOrCreatePlatformData 4).1 =
      { sampleActor with
        PlatformData := sampleActor.PlatformData ++ [FFaceFXActorData.ofPlatform 4] } :=
  ⟨by decide, by decide, by decide,
    ((GetOrCreatePlatformData_contract sampleActor 0).2.1 ⟨⟨0, 20⟩, by decide, rfl⟩).1,
    ((GetOrCreatePlatformData_contract sampleActor 4).2.2.1 (by decide)).1⟩

/-- C4: `GetPlatformData(P)` returns the data entry for `P` or `nullptr`: the
result is absent exactly when no element of `PlatformData` has platform `P`,
otherwise it designates the element of lowest index whose platform is `P`; the
asset is not modified. -/
theorem GetPlatformData_contract [DecidableEq Platform]
    (s : UFaceFXActor Base Platform Blob Anim) (P : Platform) :
    (s.GetPlatformData P).1 = s ∧
    ((s.GetPlatformData P).2 = none ↔ ∀ e ∈ s.PlatformData, e.Platform ≠ P) ∧
    (∀ i, (s.GetPlatformData P).2 = some i ↔
      (∃ e, s.entryAt i = some e ∧ e.Platform = P) ∧
      ∀ j, j < i → ∀ y, s.entryAt j = some y → y.Platform ≠ P) :=
  ⟨rfl, UFaceFXActor.findByKey_none_iff _ _, fun i => UFaceFXActor.findByKey_some_iff _ _ i⟩

/-- Witness of C4: on the sample asset platform `0` is found at index `1`, the
first of its two entries, and platform `7` is not found. -/
theorem GetPlatformData_contract_witness :
    (sampleActor.GetPlatformData 0).2 = some 1 ∧
    (sampleActor.GetPlatformData 7).2 = none ∧
    (∀ j, j < 1 → ∀ y, sampleActor.entryAt j = some y → y.Platform ≠ 0) :=
  ⟨by decide, (GetPlatformData_contract sampleActor 7).2.1.2 (by decide),
    (((GetPlatformData_contract sampleActor 0).2.2 1).1 (by decide)).2⟩

/-- C5: in the non-cooked build, when `PlatformData` holds an entry for `PC`
the assertion of `GetData` does not fire, `GetData()` returns exactly the entry
`GetPlatformData(PC)` returns, which is the first `PC` entry, the asset is
unchanged, and the const overload returns the same entry. -/
theorem GetData_editor_returns_PC [DecidableEq Platform]
    (s : UFaceFXActor Base Platform Blob Anim) (PC : Platform)
    (h : ∃ e ∈ s.PlatformData, e.Platform = PC) :
    ∃ i, (s.GetPlatformData PC).2 = some i ∧
      checkf (s.GetPlatformData PC).2.isSome "Asset not initialized for PC." = Except.ok () ∧
      s.GetData true PC = Except.ok (s, i) ∧
      s.GetDataConst true PC = Except.ok i ∧
      (∃ e, s.entryAt i = some e ∧ e.Platform = PC) ∧
      ∀ j, j < i → ∀ y, s.entryAt j = some y → y.Platform ≠ PC := by
  obtain ⟨i, hi⟩ := UFaceFXActor.findByKey_isSome_of_mem s.PlatformData PC h
  obtain ⟨h1, h2⟩ := (UFaceFXActor.findByKey_some_iff _ _ _).1 hi
  refine ⟨i, hi, ?_, ?_, ?_, h1, h2⟩
  · simp [UFaceFXActor.GetPlatformData, hi, checkf]
  · simp [UFaceFXActor.GetData, hi, checkf]
  · simp [UFaceFXActor.GetDataConst, hi, checkf]

/-- Witness of C5 on the sample asset, whose first entry tagged `0` is at
index `1`. -/
theorem GetData_editor_returns_PC_witness :
    ∃ i, (sampleActor.GetPlatformData 0).2 = some i ∧
      checkf (sampleActor.GetPlatformData 0).2.isSome "Asset not initialized for PC." =
        Except.ok () ∧
      sampleActor.GetData true 0 = Except.ok (sampleActor, i) ∧
      sampleActor.GetDataConst true 0 = Except.ok i ∧
      (∃ e, sampleActor.entryAt i = some e ∧ e.Platform = 0) ∧
      ∀ j, j < i → ∀ y, sampleActor.entryAt j = some y → y.Platform ≠ 0 :=
  GetData_editor_returns_PC sampleActor 0 ⟨⟨0, 20⟩, by decide, rfl⟩

/-- C6: `IsValid()` is true exactly when the base asset's `IsValid()` is true
and `PlatformData` holds at least one entry; after `Reset()`, which empties
`PlatformData` and leaves `Animations` and the base part unchanged, `IsValid()`
is false whatever the base validity is. -/
theorem IsValid_contract (superIsValid : Base → Bool)
    (s : UFaceFXActor Base Platform Blob Anim) :
    (s.IsValid superIsValid = true ↔ superIsValid s.Super = true ∧ s.PlatformData ≠ []) ∧
    s.Reset.IsValid superIsValid = false ∧
    s.Reset.PlatformData = [] ∧
    s.Reset.Animations = s.Animations ∧
    s.Reset.Super = s.Super := by
  refine ⟨?_, ?_, rfl, rfl, rfl⟩
  · simp [UFaceFXActor.IsValid, TArray.Num, List.length_pos]
  · simp [UFaceFXActor.IsValid, UFaceFXActor.Reset, TArray.Num, TArray.Empty]

/-- Witness of C6: the sample asset, whose base part is valid and which holds
three entries, is valid, and is not after `Reset()`. -/
theorem IsValid_contract_witness :
    sampleActor.IsValid id = true ∧ sampleActor.Reset.IsValid id = false ∧
    sampleActor.Reset.Animations = [5, 7, 9] :=
  ⟨(IsValid_contract id sampleActor).1.2 ⟨rfl, by decide⟩,
    (IsValid_contract id sampleActor).2.1, by decide⟩

/-- C7: `LinkTo(A)` links the asset to `A` and is idempotent: afterwards
`Animations` contains `A`; when `A` was already contained the asset is
unchanged, otherwise `Animations` is the old list with `A` appended at the end;
a second `LinkTo(A)` changes nothing, and `PlatformData` is not modified. -/
theorem LinkTo_contract [DecidableEq Anim] (s : UFaceFXActor Base Platform Blob Anim)
    (A : Anim) :
    A ∈ (s.LinkTo A).Animations ∧
    (A ∈ s.Animations → s.LinkTo A = s) ∧
    (A ∉ s.Animations → (s.LinkTo A).Animations = s.Animations ++ [A]) ∧
    (s.LinkTo A).LinkTo A = s.LinkTo A ∧
    (s.LinkTo A).PlatformData = s.PlatformData ∧
    (s.LinkTo A).Super = s.Super := by
  have hA := UFaceFXActor.LinkTo_Animations s A
  have hmem : A ∈ (s.LinkTo A).Animations := by
    rw [hA]
    by_cases hm : A ∈ s.Animations <;> simp [hm]
  have hsame : ∀ t : UFaceFXActor Base Platform Blob Anim, A ∈ t.Animations → t.LinkTo A = t := by
    intro t ht
    have h1 : t.LinkTo A = { t with Animations := (t.LinkTo A).Animations } := rfl
    rw [h1, UFaceFXActor.LinkTo_Animations, if_pos ht]
  refine ⟨hmem, hsame s, ?_, hsame _ hmem, rfl, rfl⟩
  intro hn
  rw [hA, if_neg hn]

/-- Witness of C7: linking the already linked `7` changes nothing, linking the
new `8` appends it. -/
theorem LinkTo_contract_witness :
    sampleActor.LinkTo 7 = sampleActor ∧
    (sampleActor.LinkTo 8).Animations = [5, 7, 9, 8] ∧
    (sampleActor.LinkTo 8).Animations = sampleActor.Animations ++ [8] ∧
    (sampleActor.LinkTo 8).LinkTo 8 = sampleActor.LinkTo 8 :=
  ⟨(LinkTo_contract sampleActor 7).2.1 (by decide), by decide,
    (LinkTo_contract sampleActor 8).2.2.1 (by decide), (LinkTo_contract sampleActor 8).2.2.2.1⟩

/-- C8: `PlatformData` holds at most one entry per target platform: when no two
entries share a platform, none do after `GetOrCreatePlatformData(P)` nor after
`Reset()`; and starting from an empty `PlatformData`, after any sequence of
`GetOrCreatePlatformData` and `Reset` calls no two entries share a platform and
the array's length is the number of distinct platforms requested since the last
`Reset`. -/
theorem PlatformData_one_entry_per_platform [DecidableEq Platform] [Inhabited Blob]
    (s : UFaceFXActor Base Platform Blob Anim) (calls : List (PlatformCall Platform)) :
    (PlatformsDistinct s.PlatformData →
      (∀ P, PlatformsDistinct (s.GetOrCreatePlatformData P).1.PlatformData) ∧
      PlatformsDistinct s.Reset.PlatformData) ∧
    (s.PlatformData = [] →
      PlatformsDistinct (runPlatformCalls s calls).PlatformData ∧
      (runPlatformCalls s calls).PlatformData.length =
        (requestedSinceReset [] calls).dedup.length) := by
  constructor
  · intro hd
    refine ⟨fun P => ?_, ?_⟩
    · exact (runPlatformCalls_invariant [PlatformCall.getOrCreate P] s
        (s.PlatformData.map (·.Platform)) hd (fun _ => Iff.rfl)).1
    · exact (runPlatformCalls_invariant [PlatformCall.reset] s
        (s.PlatformData.map (·.Platform)) hd (fun _ => Iff.rfl)).1
  · intro hs
    obtain ⟨hd, hm⟩ := runPlatformCalls_invariant calls s []
      (by simp [PlatformsDistinct, hs]) (by simp [hs])
    refine ⟨hd, ?_⟩
    have hperm : ((runPlatformCalls s calls).PlatformData.map (·.Platform)).Perm
        (requestedSinceReset [] calls).dedup :=
      (List.perm_ext_iff_of_nodup hd (List.nodup_dedup _)).2 (fun p => by
        rw [hm p, List.mem_dedup])
    simpa using hperm.length_eq

/-- Witness of C8: from the empty asset the calls `GetOrCreate 2, Reset,
GetOrCreate 1, GetOrCreate 0, GetOrCreate 1` leave two entries, for the two
distinct platforms `1` and `0` requested after the `Reset`; the asset holding
one entry for each of two platforms keeps its entries distinct. -/
theorem PlatformData_one_entry_per_platform_witness :
    (runPlatformCalls emptyActor
      [PlatformCall.getOrCreate 2, PlatformCall.reset, PlatformCall.getOrCreate 1,
        PlatformCall.getOrCreate 0, PlatformCall.getOrCreate 1]).PlatformData
      = [⟨1, 0⟩, ⟨0, 0⟩] ∧
    requestedSinceReset []
      [PlatformCall.getOrCreate 2, PlatformCall.reset, PlatformCall.getOrCreate 1,
        PlatformCall.getOrCreate 0, PlatformCall.getOrCreate 1] = [1, 0, 1] ∧
    (PlatformsDistinct (runPlatformCalls emptyActor
        [PlatformCall.getOrCreate 2, PlatformCall.reset, PlatformCall.getOrCreate 1,
          PlatformCall.getOrCreate 0, PlatformCall.getOrCreate 1]).PlatformData ∧
      (runPlatformCalls emptyActor
        [PlatformCall.getOrCreate 2, PlatformCall.reset, PlatformCall.getOrCreate 1,
          PlatformCall.getOrCreate 0, PlatformCall.getOrCreate 1]).PlatformData.length =
        (requestedSinceReset []
          [PlatformCall.getOrCreate 2, PlatformCall.reset, PlatformCall.getOrCreate 1,
            PlatformCall.getOrCreate 0, PlatformCall.getOrCreate 1]).dedup.length) ∧
    PlatformsDistinct distinctActor.PlatformData ∧
    ((∀ P, PlatformsDistinct (distinctActor.GetOrCreatePlatformData P).1.PlatformData) ∧
      PlatformsDistinct distinctActor.Reset.PlatformData) :=
  ⟨by decide, by decide, (PlatformData_one_entry_per_platform emptyActor _).2 rfl,
    by unfold PlatformsDistinct; decide,
    (PlatformData_one_entry_per_platform distinctActor []).1
      (by unfold PlatformsDistinct; decide)⟩

end Claims

end FaceFX
